import Mathlib

/-!
Verification development for the bookmarklet-llm repository.

We shallowly embed the parts of the program the specification talks about:
the provider adapters (`LLMProviders.callLMStudio` / `callOpenAI` /
`callAnthropic` / `callGemini`), the stream normalizer
(`LLMProviders.streamResponse`), the message construction in the
`POST /chat-stream` handler (`src/server/server.ts`), and
`ConfigManager.getSafeConfig` (`src/config/config-manager.ts`).

JS strings are modelled as `List Char`, bodies of HTTP requests as explicit
structures, and the fallible adapters as `Except`.
-/

namespace BookmarkletLLM

/-! ## Record splitting

`streamResponse` accumulates decoded chunks in `buffer` and splits it with
`buffer.split('\n\n')`; the last piece (`events.pop() || ''`) is kept as the
new buffer.  `splitSep` embeds JavaScript's `String.prototype.split` with the
fixed separator `"\n\n"`: leftmost, non-overlapping matches.  It always
returns a non-empty list.
-/

/-- Prepend a character to the first piece of a split result. -/
def consHead (c : Char) : List (List Char) → List (List Char)
  | [] => [[c]]
  | p :: ps => (c :: p) :: ps

/-- JavaScript `s.split("\n\n")` on a string modelled as `List Char`. -/
def splitSep : List Char → List (List Char)
  | [] => [[]]
  | [a] => [[a]]
  | a :: b :: rest =>
    if a = '\n' ∧ b = '\n' then [] :: splitSep rest
    else consHead a (splitSep (b :: rest))

theorem splitSep_ne_nil (l : List Char) : splitSep l ≠ [] := by
  match l with
  | [] => simp [splitSep]
  | [a] => simp [splitSep]
  | a :: b :: rest =>
    rw [splitSep]
    split
    · simp
    · cases hsp : splitSep (b :: rest) with
      | nil => simp [consHead]
      | cons p ps => simp [consHead]

theorem splitSep_singleton (l : List Char) (p : List Char)
    (h : splitSep l = [p]) : p = l := by
  match l with
  | [] =>
    rw [splitSep] at h
    injection h with h1 h2
    exact h1.symm
  | [a] =>
    rw [splitSep] at h
    injection h with h1 h2
    exact h1.symm
  | a :: b :: rest =>
    rw [splitSep] at h
    split at h
    · injection h with h1 h2
      exact absurd h2 (splitSep_ne_nil rest)
    · cases hsp : splitSep (b :: rest) with
      | nil => exact absurd hsp (splitSep_ne_nil (b :: rest))
      | cons q qs =>
        rw [hsp] at h
        simp only [consHead] at h
        injection h with h1 h2
        subst h2
        have hq := splitSep_singleton (b :: rest) q hsp
        rw [← h1, hq]

theorem consHead_append (c : Char) (A B : List (List Char)) (h : A ≠ []) :
    consHead c (A ++ B) = consHead c A ++ B := by
  cases A with
  | nil => exact absurd rfl h
  | cons a as => simp [consHead]

/-- Splitting a concatenation: the pieces of `a` except the last are final,
and the last piece of `a` is the carried-over buffer for `b`.  This is the
heart of chunk-boundary independence of the normalizer. -/
theorem splitSep_append (a b : List Char) :
    splitSep (a ++ b) =
      (splitSep a).dropLast ++ splitSep ((splitSep a).getLastD [] ++ b) := by
  match a with
  | [] => simp [splitSep]
  | [x] => simp [splitSep]
  | x :: y :: rest =>
    by_cases hxy : x = '\n' ∧ y = '\n'
    · have hl : splitSep (x :: y :: rest) = [] :: splitSep rest := by
        rw [splitSep, if_pos hxy]
      have hl2 : splitSep ((x :: y :: rest) ++ b) = [] :: splitSep (rest ++ b) := by
        rw [show (x :: y :: rest) ++ b = x :: y :: (rest ++ b) from rfl,
          splitSep, if_pos hxy]
      have hne := splitSep_ne_nil rest
      rw [hl2, hl, List.dropLast_cons_of_ne_nil hne, List.getLastD_cons,
        List.cons_append, splitSep_append rest b]
    · have hl : splitSep (x :: y :: rest) = consHead x (splitSep (y :: rest)) := by
        rw [splitSep, if_neg hxy]
      have hl2 : splitSep ((x :: y :: rest) ++ b) =
          consHead x (splitSep ((y :: rest) ++ b)) := by
        rw [show (x :: y :: rest) ++ b = x :: y :: (rest ++ b) from rfl,
          splitSep, if_neg hxy]
        rfl
      rw [hl2, hl, splitSep_append (y :: rest) b]
      cases hsp : splitSep (y :: rest) with
      | nil => exact absurd hsp (splitSep_ne_nil (y :: rest))
      | cons p ps =>
        cases ps with
        | nil =>
          have hp := splitSep_singleton (y :: rest) p hsp
          subst hp
          show consHead x (splitSep ((y :: rest) ++ b)) =
            splitSep ((x :: y :: rest) ++ b)
          rw [hl2]
        | cons q qs => rfl

end BookmarkletLLM

namespace BookmarkletLLM

/-! ## JSON

The record decoders call `JSON.parse` on each record payload and walk a fixed
field path.  `Json` models a parsed value; numbers keep their raw lexeme
because no extractor in the program ever reads a numeric value.
-/

inductive Json where
  | null : Json
  | bool (b : Bool) : Json
  | num (raw : String) : Json
  | str (s : String) : Json
  | arr (elems : List Json) : Json
  | obj (fields : List (String × Json)) : Json

/-- The character `{`. -/
def lbrace : Char := Char.ofNat 123

/-- The character `}`. -/
def rbrace : Char := Char.ofNat 125

def isJsonWs (c : Char) : Bool :=
  c = ' ' || c = '\t' || c = '\n' || c = '\r'

def skipWs : List Char → List Char
  | [] => []
  | c :: cs => if isJsonWs c then skipWs cs else c :: cs

def hexVal (c : Char) : Option Nat :=
  if '0' ≤ c ∧ c ≤ '9' then some (c.toNat - 48)
  else if 'a' ≤ c ∧ c ≤ 'f' then some (c.toNat - 87)
  else if 'A' ≤ c ∧ c ≤ 'F' then some (c.toNat - 55)
  else none

/-- Parse the body of a JSON string, after the opening quote.  Returns the
decoded characters and the input following the closing quote. -/
def parseStringBody : List Char → Option (List Char × List Char)
  | [] => none
  | c :: rest =>
    if c = '"' then some ([], rest)
    else if c = '\\' then
      match rest with
      | [] => none
      | e :: rest2 =>
        let simpleEsc : Option Char :=
          if e = '"' then some '"'
          else if e = '\\' then some '\\'
          else if e = '/' then some '/'
          else if e = 'b' then some (Char.ofNat 8)
          else if e = 'f' then some (Char.ofNat 12)
          else if e = 'n' then some '\n'
          else if e = 'r' then some '\r'
          else if e = 't' then some '\t'
          else none
        match simpleEsc with
        | some d =>
          match parseStringBody rest2 with
          | some (cs, r) => some (d :: cs, r)
          | none => none
        | none =>
          if e = 'u' then
            match rest2 with
            | h1 :: h2 :: h3 :: h4 :: rest3 =>
              match hexVal h1, hexVal h2, hexVal h3, hexVal h4 with
              | some a, some b, some c2, some d2 =>
                match parseStringBody rest3 with
                | some (cs, r) =>
                  some (Char.ofNat (((a * 16 + b) * 16 + c2) * 16 + d2) :: cs, r)
                | none => none
              | _, _, _, _ => none
            | _ => none
          else none
    else if c.toNat < 32 then none
    else
      match parseStringBody rest with
      | some (cs, r) => some (c :: cs, r)
      | none => none

/-- Longest digit prefix and the remainder. -/
def takeDigits : List Char → List Char × List Char
  | [] => ([], [])
  | c :: cs =>
    if c.isDigit then
      let (ds, r) := takeDigits cs
      (c :: ds, r)
    else ([], c :: cs)

/-- Parse a JSON number, returning its raw lexeme and the remainder. -/
def parseNum (s : List Char) : Option (List Char × List Char) :=
  let (neg, s1) : List Char × List Char :=
    match s with
    | c :: cs => if c = '-' then ([c], cs) else ([], s)
    | [] => ([], s)
  match s1 with
  | [] => none
  | c :: cs =>
    if ¬ c.isDigit then none
    else
      let (intPart, r1) := if c = '0' then ([c], cs) else takeDigits (c :: cs)
      let (fracPart, r2) : List Char × List Char :=
        match r1 with
        | d :: ds =>
          if d = '.' then
            match takeDigits ds with
            | ([], _) => ([], r1)
            | (ds2, r) => (d :: ds2, r)
          else ([], r1)
        | [] => ([], r1)
      let (expPart, r3) : List Char × List Char :=
        match r2 with
        | e :: es =>
          if e = 'e' ∨ e = 'E' then
            let (sign, es2) : List Char × List Char :=
              match es with
              | k :: ks => if k = '+' ∨ k = '-' then ([k], ks) else ([], es)
              | [] => ([], es)
            match takeDigits es2 with
            | ([], _) => ([], r2)
            | (ds2, r) => (e :: (sign ++ ds2), r)
          else ([], r2)
        | [] => ([], r2)
      some (neg ++ intPart ++ fracPart ++ expPart, r3)

mutual

/-- Recursive-descent JSON value, fuelled to make termination evident. -/
def parseValue : Nat → List Char → Option (Json × List Char)
  | 0, _ => none
  | Nat.succ fuel, s =>
    match skipWs s with
    | [] => none
    | c :: rest =>
      if c = '"' then
        match parseStringBody rest with
        | some (cs, r) => some (.str (String.mk cs), r)
        | none => none
      else if c = lbrace then parseObjBody fuel rest
      else if c = '[' then parseArrBody fuel rest
      else if c = 't' then
        match rest with
        | 'r' :: 'u' :: 'e' :: r => some (.bool true, r)
        | _ => none
      else if c = 'f' then
        match rest with
        | 'a' :: 'l' :: 's' :: 'e' :: r => some (.bool false, r)
        | _ => none
      else if c = 'n' then
        match rest with
        | 'u' :: 'l' :: 'l' :: r => some (.null, r)
        | _ => none
      else
        match parseNum (c :: rest) with
        | some (lex, r) => some (.num (String.mk lex), r)
        | none => none

/-- After the opening bracket of an array. -/
def parseArrBody : Nat → List Char → Option (Json × List Char)
  | 0, _ => none
  | Nat.succ fuel, s =>
    match skipWs s with
    | c :: rest =>
      if c = ']' then some (.arr [], rest)
      else parseArrElems fuel s []
    | [] => none

def parseArrElems : Nat → List Char → List Json → Option (Json × List Char)
  | 0, _, _ => none
  | Nat.succ fuel, s, acc =>
    match parseValue fuel s with
    | none => none
    | some (v, r) =>
      match skipWs r with
      | c :: rest =>
        if c = ',' then parseArrElems fuel rest (acc ++ [v])
        else if c = ']' then some (.arr (acc ++ [v]), rest)
        else none
      | [] => none

/-- After the opening brace of an object. -/
def parseObjBody : Nat → List Char → Option (Json × List Char)
  | 0, _ => none
  | Nat.succ fuel, s =>
    match skipWs s with
    | c :: rest =>
      if c = rbrace then some (.obj [], rest)
      else parseObjMembers fuel s []
    | [] => none

def parseObjMembers : Nat → List Char → List (String × Json) →
    Option (Json × List Char)
  | 0, _, _ => none
  | Nat.succ fuel, s, acc =>
    match skipWs s with
    | c :: rest =>
      if c = '"' then
        match parseStringBody rest with
        | some (kcs, r1) =>
          match skipWs r1 with
          | d :: r2 =>
            if d = ':' then
              match parseValue fuel r2 with
              | some (v, r3) =>
                match skipWs r3 with
                | e :: r4 =>
                  if e = ',' then
                    parseObjMembers fuel r4 (acc ++ [(String.mk kcs, v)])
                  else if e = rbrace then
                    some (.obj (acc ++ [(String.mk kcs, v)]), r4)
                  else none
                | [] => none
              | none => none
            else none
          | [] => none
        | none => none
      else none
    | [] => none

end

/-- `JSON.parse`: the whole input must be one value (plus whitespace). -/
def parseJson (s : List Char) : Option Json :=
  match parseValue (3 * s.length + 16) s with
  | some (v, rest) => if skipWs rest = [] then some v else none
  | none => none

/-- Object field lookup (`obj.key`); with duplicate keys the last wins,
as with `JSON.parse`. -/
def Json.getField : Json → String → Option Json
  | .obj fields, k =>
    match fields.reverse.find? (fun f => f.1 == k) with
    | some f => some f.2
    | none => none
  | _, _ => none

/-- Array index lookup (`arr[i]`). -/
def Json.getIdx : Json → Nat → Option Json
  | .arr xs, i => xs[i]?
  | _, _ => none

/-- Models `e || ''` applied to an optional-chain result `e`, for the
string-typed extractions the stream decoders perform: a missing path or a
JSON `null` / `false` / `""` yields `''`.  (The provider wire formats type
these fields as strings; the decoders only feed the result to `if (token)`
and `JSON.stringify`, so the model keeps it string-valued.) -/
def jsTokenOrEmpty : Option Json → String
  | some (.str s) => s
  | _ => ""

/-- `parsed.choices?.[0]?.delta?.content || ''` (Family A). -/
def extractOpenAI (j : Json) : String :=
  jsTokenOrEmpty ((((j.getField "choices").bind (fun a => a.getIdx 0)).bind
    (fun d => d.getField "delta")).bind (fun d => d.getField "content"))

/-- Family B: only `type === 'content_block_delta'` records contribute,
via `parsed.delta?.text || ''`. -/
def extractAnthropic (j : Json) : String :=
  match j.getField "type" with
  | some (.str t) =>
    if t = "content_block_delta" then
      jsTokenOrEmpty ((j.getField "delta").bind (fun d => d.getField "text"))
    else ""
  | _ => ""

/-- `parsed.candidates?.[0]?.content?.parts?.[0]?.text || ''` (Family C). -/
def extractGemini (j : Json) : String :=
  jsTokenOrEmpty ((((((j.getField "candidates").bind (fun a => a.getIdx 0)).bind
    (fun c => c.getField "content")).bind (fun c => c.getField "parts")).bind
    (fun a => a.getIdx 0)).bind (fun p => p.getField "text"))

end BookmarkletLLM

namespace BookmarkletLLM

/-! ## The stream normalizer (`LLMProviders.streamResponse`)

The loop reads chunks, appends them to a buffer, splits the buffer on
`'\n\n'`, keeps the trailing piece, and decodes each complete record with a
per-provider branch.  A `[DONE]` sentinel writes the literal terminator and
returns; a natural end of the byte stream just ends the response; a read
rejection propagates to the `/chat-stream` handler's `catch`, which writes an
error record.
-/

inductive Provider
  | lmstudio
  | openai
  | anthropic
  | gemini
deriving DecidableEq

/-- What one complete record contributes: the terminator sentinel, or a
(possibly empty) token text.  The empty text covers records that are
skipped — no `data: ` marker, malformed JSON, heartbeat records, non-delta
record types. -/
inductive RecordResult
  | done : RecordResult
  | token (t : String) : RecordResult
deriving DecidableEq

def dataMarker : List Char := "data: ".toList

/-- Per-record decoding: the body of `for (const event of events)` in
`streamResponse`, with the provider branch. -/
def recAction (provider : Provider) (event : List Char) : RecordResult :=
  if event.take 6 = dataMarker then
    let data := event.drop 6
    match provider with
    | .anthropic =>
      if data = "[DONE]".toList then .done
      else
        match parseJson data with
        | some parsed => .token (extractAnthropic parsed)
        | none => .token ""
    | .gemini =>
      match parseJson data with
      | some parsed => .token (extractGemini parsed)
      | none => .token ""
    | _ =>
      if data = "[DONE]".toList then .done
      else
        match parseJson data with
        | some parsed => .token (extractOpenAI parsed)
        | none => .token ""
  else .token ""

/-- One outbound write on the SSE response: `tok t` is
`res.write('data: ' + JSON.stringify(token) + '\n\n')`, `doneMark` is
`res.write('data: [DONE]\n\n')`, `err m` is the handler writing
`data: ` + a JSON record with an `error` field, and `close` is `res.end()`. -/
inductive Out
  | tok (t : String)
  | doneMark
  | err (m : String)
  | close
deriving DecidableEq

/-- Decode a list of complete records (the inner `for` loop).  An empty
extracted token writes nothing (`if (token)`); a `[DONE]` sentinel writes the
terminator, ends the response and returns (`true`), skipping the remaining
records. -/
def processEvents (provider : Provider) : List (List Char) → List Out × Bool
  | [] => ([], false)
  | e :: rest =>
    match recAction provider e with
    | .done => ([Out.doneMark, Out.close], true)
    | .token t =>
      let pr := processEvents provider rest
      (if t = "" then pr.1 else Out.tok t :: pr.1, pr.2)

/-- Normalizer state across chunk reads: the writes so far, the undecoded
buffer tail, and whether `streamResponse` has already returned after a
`[DONE]` sentinel. -/
structure StreamState where
  out : List Out
  buf : List Char
  finished : Bool
deriving DecidableEq

def initState : StreamState := ⟨[], [], false⟩

/-- One iteration of the read loop on one decoded chunk:
`buffer += chunk; events = buffer.split('\n\n'); buffer = events.pop() || ''`
followed by the record loop.  After the source has returned (`finished`),
later chunks are never read; the then-dead buffer is normalized to `[]` so
that equal behaviours are equal states. -/
def feed (provider : Provider) (st : StreamState) (chunk : List Char) :
    StreamState :=
  if st.finished then st
  else
    let parts := splitSep (st.buf ++ chunk)
    let pr := processEvents provider parts.dropLast
    ⟨st.out ++ pr.1, if pr.2 then [] else parts.getLastD [], pr.2⟩

def streamFold (provider : Provider) (chunks : List (List Char)) : StreamState :=
  chunks.foldl (feed provider) initState

/-- How the byte stream terminates: `natural` is `reader.read()` resolving
with `done: true`; `abort m` is the read rejecting with a transport error
whose message is `m`. -/
inductive Ending
  | natural
  | abort (m : String)

/-- Caller-visible write sequence of `LLMProviders.streamResponse` composed
with the `/chat-stream` handler's `catch`: decode all chunks in order; if a
`[DONE]` sentinel already returned, the ending is never observed; otherwise
a natural end runs `res.end()`, and an abort is caught by the handler, which
writes an error record and ends the response. -/
def streamResponse (provider : Provider) (chunks : List (List Char))
    (ending : Ending) : List Out :=
  if (streamFold provider chunks).finished then (streamFold provider chunks).out
  else
    match ending with
    | .natural => (streamFold provider chunks).out ++ [Out.close]
    | .abort m => (streamFold provider chunks).out ++ [Out.err m, Out.close]

theorem getLastD_append_right (A B : List (List Char)) (h : B ≠ []) :
    (A ++ B).getLastD [] = B.getLastD [] := by
  rw [List.getLastD_eq_getLast?, List.getLastD_eq_getLast?, List.getLast?_append]
  cases hB : B.getLast? with
  | none => exact absurd (List.getLast?_eq_none_iff.mp hB) h
  | some x => rfl

/-- Decoding a concatenation of record lists: if the first part hits the
sentinel, the rest is skipped; otherwise outputs concatenate. -/
theorem processEvents_append (provider : Provider) (l1 l2 : List (List Char)) :
    processEvents provider (l1 ++ l2) =
      if (processEvents provider l1).2 then processEvents provider l1
      else ((processEvents provider l1).1 ++ (processEvents provider l2).1,
        (processEvents provider l2).2) := by
  induction l1 with
  | nil => simp [processEvents]
  | cons e l1 ih =>
    rw [List.cons_append, processEvents, processEvents]
    cases recAction provider e with
    | done => simp
    | token t =>
      rw [ih]
      by_cases hfin : (processEvents provider l1).2
      · simp [hfin]
      · simp only [hfin, if_false, Bool.false_eq_true]
        by_cases ht : t = ""
        · simp [ht]
        · simp [ht]

end BookmarkletLLM

namespace BookmarkletLLM

/-- Feeding one chunk and then another is the same as feeding their
concatenation: the retained trailing piece makes the chunking invisible. -/
theorem feed_append (provider : Provider) (st : StreamState) (a b : List Char) :
    feed provider st (a ++ b) = feed provider (feed provider st a) b := by
  by_cases hfin : st.finished
  · simp [feed, hfin]
  · have hQne := splitSep_ne_nil ((splitSep (st.buf ++ a)).getLastD [] ++ b)
    have hsplit : splitSep (st.buf ++ (a ++ b)) =
        (splitSep (st.buf ++ a)).dropLast ++
          splitSep ((splitSep (st.buf ++ a)).getLastD [] ++ b) := by
      rw [← List.append_assoc, splitSep_append (st.buf ++ a) b]
    have hfeedA : feed provider st a =
        ⟨st.out ++ (processEvents provider (splitSep (st.buf ++ a)).dropLast).1,
          if (processEvents provider (splitSep (st.buf ++ a)).dropLast).2 then []
          else (splitSep (st.buf ++ a)).getLastD [],
          (processEvents provider (splitSep (st.buf ++ a)).dropLast).2⟩ := by
      rw [feed, if_neg hfin]
    have hfeedAB : feed provider st (a ++ b) =
        ⟨st.out ++ (processEvents provider (splitSep (st.buf ++ (a ++ b))).dropLast).1,
          if (processEvents provider (splitSep (st.buf ++ (a ++ b))).dropLast).2 then []
          else (splitSep (st.buf ++ (a ++ b))).getLastD [],
          (processEvents provider (splitSep (st.buf ++ (a ++ b))).dropLast).2⟩ := by
      rw [feed, if_neg hfin]
    have hRdrop : (splitSep (st.buf ++ (a ++ b))).dropLast =
        (splitSep (st.buf ++ a)).dropLast ++
          (splitSep ((splitSep (st.buf ++ a)).getLastD [] ++ b)).dropLast := by
      rw [hsplit, List.dropLast_append_of_ne_nil _ hQne]
    have hRlast : (splitSep (st.buf ++ (a ++ b))).getLastD [] =
        (splitSep ((splitSep (st.buf ++ a)).getLastD [] ++ b)).getLastD [] := by
      rw [hsplit]
      exact getLastD_append_right _ _ hQne
    rw [hfeedAB, hfeedA, hRdrop, hRlast,
      processEvents_append provider (splitSep (st.buf ++ a)).dropLast
        (splitSep ((splitSep (st.buf ++ a)).getLastD [] ++ b)).dropLast]
    by_cases h1 : (processEvents provider (splitSep (st.buf ++ a)).dropLast).2
    · rw [if_pos h1, feed]
      simp [h1]
    · rw [if_neg h1, feed]
      simp only [h1, Bool.false_eq_true, if_false]
      simp [List.append_assoc]

theorem foldl_feed_join (provider : Provider) (st : StreamState) (a : List Char)
    (cs : List (List Char)) :
    cs.foldl (feed provider) (feed provider st a) =
      feed provider st (a ++ cs.flatten) := by
  induction cs generalizing a with
  | nil => simp
  | cons c cs ih =>
    rw [List.foldl_cons, ← feed_append, ih (a ++ c), List.flatten_cons,
      List.append_assoc]

/-- Reading the whole byte sequence as one chunk gives the same state as any
chunked reading of it. -/
theorem streamFold_eq_flatten (provider : Provider) (chunks : List (List Char)) :
    streamFold provider chunks = feed provider initState chunks.flatten := by
  cases chunks with
  | nil =>
    show initState = feed provider initState []
    rw [feed]
    rfl
  | cons c cs =>
    rw [streamFold, List.foldl_cons, foldl_feed_join, List.flatten_cons]

end BookmarkletLLM

namespace BookmarkletLLM

/-- If the record loop did not hit a sentinel, it wrote no terminator. -/
theorem processEvents_false_no_doneMark (provider : Provider)
    (l : List (List Char)) :
    (processEvents provider l).2 = false →
      Out.doneMark ∉ (processEvents provider l).1 := by
  induction l with
  | nil => simp [processEvents]
  | cons e rest ih =>
    rw [processEvents]
    cases recAction provider e with
    | done => intro h; simp at h
    | token t =>
      show (processEvents provider rest).2 = false →
        Out.doneMark ∉ (if t = "" then (processEvents provider rest).1
          else Out.tok t :: (processEvents provider rest).1)
      intro h
      by_cases ht : t = ""
      · rw [if_pos ht]
        exact ih h
      · rw [if_neg ht]
        intro hmem
        rcases List.mem_cons.mp hmem with h1 | h1
        · exact Out.noConfusion h1
        · exact ih h h1

/-- If the record loop hit the sentinel, its writes end with the terminator
record followed by `res.end()`. -/
theorem processEvents_true_ends (provider : Provider)
    (l : List (List Char)) :
    (processEvents provider l).2 = true →
      ∃ pre, (processEvents provider l).1 = pre ++ [Out.doneMark, Out.close] := by
  induction l with
  | nil => simp [processEvents]
  | cons e rest ih =>
    rw [processEvents]
    cases recAction provider e with
    | done => intro _; exact ⟨[], rfl⟩
    | token t =>
      show (processEvents provider rest).2 = true →
        ∃ pre, (if t = "" then (processEvents provider rest).1
          else Out.tok t :: (processEvents provider rest).1) =
            pre ++ [Out.doneMark, Out.close]
      intro h
      obtain ⟨pre, hpre⟩ := ih h
      by_cases ht : t = ""
      · exact ⟨pre, by rw [if_pos ht]; exact hpre⟩
      · exact ⟨Out.tok t :: pre, by rw [if_neg ht, hpre]; rfl⟩

/-- Invariant of the loop state: no terminator was written while running,
and the writes end with the terminator and `res.end()` once returned. -/
def GoodState (st : StreamState) : Prop :=
  (st.finished = false → Out.doneMark ∉ st.out) ∧
  (st.finished = true → ∃ pre, st.out = pre ++ [Out.doneMark, Out.close])

theorem feed_good (provider : Provider) (st : StreamState) (c : List Char)
    (h : GoodState st) : GoodState (feed provider st c) := by
  by_cases hfin : st.finished
  · rw [feed, if_pos hfin]; exact h
  · rw [feed, if_neg hfin]
    constructor
    · intro hf
      simp only at hf
      simp only [List.mem_append, not_or]
      refine ⟨h.1 (Bool.not_eq_true _ ▸ hfin), ?_⟩
      exact processEvents_false_no_doneMark provider _ hf
    · intro hf
      simp only at hf
      obtain ⟨pre, hpre⟩ := processEvents_true_ends provider _ hf
      exact ⟨st.out ++ pre, by simp [hpre]⟩

theorem streamFold_good (provider : Provider) (chunks : List (List Char)) :
    GoodState (streamFold provider chunks) := by
  rw [streamFold]
  induction chunks using List.reverseRecOn with
  | nil =>
    constructor
    · intro _; simp [initState]
    · intro hf; simp [initState] at hf
  | append_singleton cs c ih =>
    rw [List.foldl_append, List.foldl_cons, List.foldl_nil]
    exact feed_good provider _ c ih

end BookmarkletLLM

namespace BookmarkletLLM

/-- A complete `data: `-prefixed record whose payload fails to parse decodes
to the empty token: the per-record `catch` swallows the JSON error. -/
theorem recAction_malformed (provider : Provider) (payload : List Char)
    (hbad : (parseJson payload).isNone = true)
    (hnd : payload ≠ "[DONE]".toList) :
    recAction provider (dataMarker ++ payload) = RecordResult.token "" := by
  have htake : (dataMarker ++ payload).take 6 = dataMarker := by
    have h6 : dataMarker.length = 6 := by decide
    rw [← h6, List.take_left]
  have hdrop : (dataMarker ++ payload).drop 6 = payload := by
    have h6 : dataMarker.length = 6 := by decide
    rw [← h6, List.drop_left]
  have hparse : parseJson payload = none := Option.isNone_iff_eq_none.mp hbad
  rw [recAction, if_pos htake]
  cases provider with
  | anthropic =>
    show (if (dataMarker ++ payload).drop 6 = "[DONE]".toList then RecordResult.done
      else _) = _
    rw [hdrop, if_neg hnd, hparse]
  | gemini =>
    show (match parseJson ((dataMarker ++ payload).drop 6) with
      | some parsed => RecordResult.token (extractGemini parsed)
      | none => RecordResult.token "") = _
    rw [hdrop, hparse]
  | lmstudio =>
    show (if (dataMarker ++ payload).drop 6 = "[DONE]".toList then RecordResult.done
      else _) = _
    rw [hdrop, if_neg hnd, hparse]
  | openai =>
    show (if (dataMarker ++ payload).drop 6 = "[DONE]".toList then RecordResult.done
      else _) = _
    rw [hdrop, if_neg hnd, hparse]

/-- A record that decodes to the empty token contributes nothing: deleting it
from the record list leaves the loop's writes and outcome unchanged. -/
theorem processEvents_skip_empty (provider : Provider) (e : List Char)
    (he : recAction provider e = RecordResult.token "")
    (pre post : List (List Char)) :
    processEvents provider (pre ++ e :: post) = processEvents provider (pre ++ post) := by
  induction pre with
  | nil =>
    show processEvents provider (e :: post) = processEvents provider post
    rw [processEvents, he]
    simp
  | cons f pre ih =>
    rw [List.cons_append, List.cons_append, processEvents, processEvents, ih]

end BookmarkletLLM

namespace BookmarkletLLM

/-! ## Data model: messages, requests, provider configuration

From `src/types/index.ts`, `src/server/server.ts` (the `/chat-stream`
handler), `src/server/llm-providers.ts` (the adapters) and
`src/config/config-manager.ts`.  A missing/unset `apiKey` is modelled as the
empty string (both are falsy in the source).  `temperature` is carried as a
rational: the program only ever copies it into request bodies.
-/

inductive Role
  | system
  | user
  | assistant
deriving DecidableEq

/-- A chat message as sent to a provider (`ChatMessage`). -/
structure ChatMessage where
  role : Role
  content : String
deriving DecidableEq

/-- An entry of the client-maintained history (`ChatHistoryItem`); its
`type` is restricted to `user`/`assistant` in the source. -/
structure ChatHistoryItem where
  type : Role
  content : String
  timestamp : Nat
deriving DecidableEq

/-- The body of `POST /chat-stream` (`ChatRequest`); an absent `history` is
the empty list (the handler defaults it to `[]`). -/
structure ChatRequest where
  title : String
  url : String
  text : String
  question : String
  history : List ChatHistoryItem
  provider : Option Provider
deriving DecidableEq

/-- The combined page-context-plus-question text built by the handler. -/
def contextualQuestion (req : ChatRequest) : String :=
  "Current page: \"" ++ req.title ++ "\" (" ++ req.url ++ ")\n\n" ++ req.text ++
    "\n\nQuestion: " ++ req.question

/-- The `messages` array the `/chat-stream` handler passes to
`callProvider`: a system message from the provider's `systemPrompt`, then
one user message combining title, URL, page text and question.  The
request's `history` is destructured and logged but never pushed into
`messages`. -/
def buildMessages (systemPrompt : String) (req : ChatRequest) : List ChatMessage :=
  [⟨Role.system, systemPrompt⟩, ⟨Role.user, contextualQuestion req⟩]

/-- A provider's configuration record (`LLMProvider`). -/
structure LLMProvider where
  baseUrl : String
  apiKey : String
  model : String
  temperature : Rat
  maxTokens : Nat
  systemPrompt : String
  enabled : Bool
deriving DecidableEq

/-- One outbound `fetch`: URL, headers, and the JSON body as a typed record.
The adapters each perform at most this single call; an `Except.error` result
models a throw before any fetch. -/
structure FetchCall (β : Type) where
  url : String
  headers : List (String × String)
  body : β
deriving DecidableEq

/-- Body shape shared by the LM Studio and OpenAI adapters. -/
structure OpenAIBody where
  model : String
  messages : List ChatMessage
  stream : Bool
  temperature : Rat
  max_tokens : Nat
deriving DecidableEq

/-- Body shape of the Anthropic adapter: the system text is a separate
top-level field. -/
structure AnthropicBody where
  model : String
  messages : List ChatMessage
  system : String
  stream : Bool
  temperature : Rat
  max_tokens : Nat
deriving DecidableEq

/-- One element of `contents` in the Gemini body; `parts: [{ text }]` is
modelled as the list of texts. -/
structure GeminiContent where
  role : String
  parts : List String
deriving DecidableEq

/-- Body shape of the Gemini adapter; the two fields of `generationConfig`
are inlined. -/
structure GeminiBody where
  contents : List GeminiContent
  temperature : Rat
  maxOutputTokens : Nat
deriving DecidableEq

/-- `LLMProviders.callLMStudio`: no credential check, no authorization
header. -/
def callLMStudio (config : LLMProvider) (messages : List ChatMessage) :
    Except String (FetchCall OpenAIBody) :=
  Except.ok ⟨config.baseUrl ++ "/chat/completions",
    [("Content-Type", "application/json")],
    ⟨config.model, messages, true, config.temperature, config.maxTokens⟩⟩

/-- `LLMProviders.callOpenAI`: throws before fetching when no key is
configured; otherwise sends a bearer authorization header. -/
def callOpenAI (config : LLMProvider) (messages : List ChatMessage) :
    Except String (FetchCall OpenAIBody) :=
  if config.apiKey = "" then Except.error "OpenAI API key not configured"
  else
    Except.ok ⟨config.baseUrl ++ "/chat/completions",
      [("Content-Type", "application/json"),
        ("Authorization", "Bearer " ++ config.apiKey)],
      ⟨config.model, messages, true, config.temperature, config.maxTokens⟩⟩

/-- `LLMProviders.callAnthropic`: throws before fetching when no key is
configured; extracts the system message out of the conversation and sends
the credential via `x-api-key` plus a fixed `anthropic-version` header. -/
def callAnthropic (config : LLMProvider) (messages : List ChatMessage) :
    Except String (FetchCall AnthropicBody) :=
  if config.apiKey = "" then Except.error "Anthropic API key not configured"
  else
    let systemMessage := messages.find? (fun m => m.role == Role.system)
    let conversationMessages := messages.filter (fun m => !(m.role == Role.system))
    let systemText : String :=
      match systemMessage with
      | some m => if m.content = "" then config.systemPrompt else m.content
      | none => config.systemPrompt
    Except.ok ⟨config.baseUrl ++ "/messages",
      [("Content-Type", "application/json"), ("x-api-key", config.apiKey),
        ("anthropic-version", "2023-06-01")],
      ⟨config.model, conversationMessages, systemText, true, config.temperature,
        config.maxTokens⟩⟩

/-- The per-message remap of `callGemini`:
`role: msg.role === 'assistant' ? 'model' : 'user'`, text wrapped in
`parts`. -/
def geminiContentOf (m : ChatMessage) : GeminiContent :=
  ⟨if m.role = Role.assistant then "model" else "user", [m.content]⟩

/-- `LLMProviders.callGemini`: throws before fetching when no key is
configured; the credential travels as a URL query parameter, and the body
has only `contents` and `generationConfig` (no system field). -/
def callGemini (config : LLMProvider) (messages : List ChatMessage) :
    Except String (FetchCall GeminiBody) :=
  if config.apiKey = "" then Except.error "Gemini API key not configured"
  else
    Except.ok ⟨config.baseUrl ++ "/models/" ++ config.model ++
        ":streamGenerateContent?key=" ++ config.apiKey,
      [("Content-Type", "application/json")],
      ⟨messages.map geminiContentOf, config.temperature, config.maxTokens⟩⟩

/-- The `providers` record of the configuration. -/
structure Providers where
  lmstudio : LLMProvider
  openai : LLMProvider
  anthropic : LLMProvider
  gemini : LLMProvider
deriving DecidableEq

def Providers.get : Providers → Provider → LLMProvider
  | ps, Provider.lmstudio => ps.lmstudio
  | ps, Provider.openai => ps.openai
  | ps, Provider.anthropic => ps.anthropic
  | ps, Provider.gemini => ps.gemini

/-- The stored configuration (`this.config` of `ConfigManager`). -/
structure LLMConfig where
  activeProvider : Provider
  providers : Providers
deriving DecidableEq

/-- The per-provider assignment inside `getSafeConfig`: a provider object
with a truthy (non-empty) `apiKey` gets `apiKey = '***'` (the inner ternary
is then always `'***'`); a falsy one is left untouched. -/
def maskApiKey (p : LLMProvider) : LLMProvider :=
  if p.apiKey = "" then p else { p with apiKey := "***" }

/-- `ConfigManager.getSafeConfig`.  In the source, `{ ...this.config }` is a
SHALLOW copy: `safeConfig.providers` is the very record object stored in
`this.config`, so the per-provider `apiKey = '***'` assignments mutate the
nested provider objects of the live configuration too.  We model the method
in state-passing style: the first component is the value handed to the
caller, the second the stored configuration after the call.  Because of the
aliasing, both carry the masked keys. -/
def getSafeConfig (c : LLMConfig) : LLMConfig × LLMConfig :=
  let masked : Providers :=
    ⟨maskApiKey c.providers.lmstudio, maskApiKey c.providers.openai,
      maskApiKey c.providers.anthropic, maskApiKey c.providers.gemini⟩
  ({ c with providers := masked }, { c with providers := masked })

end BookmarkletLLM

namespace BookmarkletLLM

/-! ## Claim theorems -/

/-- C1: chunk-boundary independence.  For every provider and every input
character sequence, any two partitions of that sequence into chunks fed to
`streamResponse` produce identical write sequences (for the same stream
ending): the trailing partial record is retained in the buffer and never
decoded early. -/
theorem chunk_boundary_independence (provider : Provider)
    (chunks1 chunks2 : List (List Char)) (ending : Ending)
    (h : chunks1.flatten = chunks2.flatten) :
    streamResponse provider chunks1 ending =
      streamResponse provider chunks2 ending := by
  unfold streamResponse
  rw [streamFold_eq_flatten, streamFold_eq_flatten, h]

/-- Witness for C1: splitting a Family A record in the middle of its JSON
payload does not change the emitted writes. -/
theorem chunk_boundary_independence_witness :
    streamResponse Provider.openai
      ["data: \x7b\"choi".toList,
        "ces\":[\x7b\"delta\":\x7b\"content\":\"Hi\"\x7d\x7d]\x7d\n\n".toList]
      Ending.natural =
    streamResponse Provider.openai
      ["data: \x7b\"choices\":[\x7b\"delta\":\x7b\"content\":\"Hi\"\x7d\x7d]\x7d\n\n".toList]
      Ending.natural :=
  chunk_boundary_independence Provider.openai _ _ Ending.natural (by decide)

/-- C2 counterexample: the `/chat-stream` handler drops a supplied
non-empty history.  At this concrete request carrying one history entry,
the messages handed to the provider are exactly the system message and the
combined user message, and no message carries the history content — the
history messages do NOT appear in the message list. -/
theorem history_dropped_counterexample :
    buildMessages "SP"
        ⟨"T", "U", "X", "Q", [⟨Role.user, "earlier question", 5⟩], none⟩ =
      [⟨Role.system, "SP"⟩,
        ⟨Role.user, "Current page: \"T\" (U)\n\nX\n\nQuestion: Q"⟩] ∧
    ∀ msg ∈ buildMessages "SP"
        ⟨"T", "U", "X", "Q", [⟨Role.user, "earlier question", 5⟩], none⟩,
      msg.content ≠ "earlier question" := by
  constructor
  · rfl
  · decide

/-- C2 amended: the conversation handed to the provider adapter is exactly
the system instruction followed by the one combined user message; the
request's history never influences it (the handler logs the history but
does not include it). -/
theorem messages_ignore_history (systemPrompt : String) (req : ChatRequest) :
    buildMessages systemPrompt req =
      buildMessages systemPrompt { req with history := [] } ∧
    (buildMessages systemPrompt req).map ChatMessage.role =
      [Role.system, Role.user] ∧
    (buildMessages systemPrompt req).map ChatMessage.content =
      [systemPrompt, contextualQuestion req] :=
  ⟨rfl, rfl, rfl⟩

/-- C3: for every provider, when the transport aborts the byte stream before
any `[DONE]` sentinel was decoded, the caller-visible sequence ends with an
error record carrying the message followed by `res.end()`, and contains no
terminator record — never a silent completion indistinguishable from Done. -/
theorem abrupt_close_yields_error (provider : Provider)
    (chunks : List (List Char)) (m : String)
    (h : (streamFold provider chunks).finished = false) :
    streamResponse provider chunks (Ending.abort m) =
      (streamFold provider chunks).out ++ [Out.err m, Out.close] ∧
    Out.doneMark ∉ streamResponse provider chunks (Ending.abort m) := by
  have hne : ¬((streamFold provider chunks).finished = true) := by
    rw [h]; exact Bool.false_ne_true
  have hout : streamResponse provider chunks (Ending.abort m) =
      (streamFold provider chunks).out ++ [Out.err m, Out.close] := by
    rw [streamResponse, if_neg hne]
  refine ⟨hout, ?_⟩
  rw [hout]
  have hnd := (streamFold_good provider chunks).1 h
  simp only [List.mem_append, not_or]
  exact ⟨hnd, by simp⟩

/-- Witness for C3: a Gemini stream that emits one fragment and is then
aborted ends in the error record, with no terminator. -/
theorem abrupt_close_yields_error_witness :
    streamResponse Provider.gemini
        ["data: \x7b\"candidates\":[\x7b\"content\":\x7b\"parts\":[\x7b\"text\":\"OK\"\x7d]\x7d\x7d]\x7d\n\n".toList]
        (Ending.abort "terminated") =
      (streamFold Provider.gemini
        ["data: \x7b\"candidates\":[\x7b\"content\":\x7b\"parts\":[\x7b\"text\":\"OK\"\x7d]\x7d\x7d]\x7d\n\n".toList]).out ++
        [Out.err "terminated", Out.close] ∧
    Out.doneMark ∉ streamResponse Provider.gemini
        ["data: \x7b\"candidates\":[\x7b\"content\":\x7b\"parts\":[\x7b\"text\":\"OK\"\x7d]\x7d\x7d]\x7d\n\n".toList]
        (Ending.abort "terminated") :=
  abrupt_close_yields_error Provider.gemini _ "terminated" (by decide)

/-- C4 counterexample: a Gemini stream that ends by natural exhaustion of
the byte stream reaches Done, but the written sequence is just the fragment
record and `res.end()` — the literal terminator record `data: [DONE]` is
NOT written, contradicting the claim that every Done ends with it. -/
theorem natural_end_no_terminator_counterexample :
    streamResponse Provider.gemini
        ["data: \x7b\"candidates\":[\x7b\"content\":\x7b\"parts\":[\x7b\"text\":\"OK\"\x7d]\x7d\x7d]\x7d\n\n".toList]
        Ending.natural = [Out.tok "OK", Out.close] ∧
    Out.doneMark ∉ streamResponse Provider.gemini
        ["data: \x7b\"candidates\":[\x7b\"content\":\x7b\"parts\":[\x7b\"text\":\"OK\"\x7d]\x7d\x7d]\x7d\n\n".toList]
        Ending.natural := by
  constructor
  · decide
  · decide

/-- C4 amended: the outbound sequence ends with the literal terminator
record followed by `res.end()` exactly when a `[DONE]` sentinel record was
decoded; on natural exhaustion without a sentinel the response is closed
with `res.end()` alone and no terminator record is ever written. -/
theorem done_marker_iff_sentinel (provider : Provider)
    (chunks : List (List Char)) :
    ((streamFold provider chunks).finished = true →
      ∃ pre, streamResponse provider chunks Ending.natural =
        pre ++ [Out.doneMark, Out.close]) ∧
    ((streamFold provider chunks).finished = false →
      Out.doneMark ∉ streamResponse provider chunks Ending.natural ∧
      streamResponse provider chunks Ending.natural =
        (streamFold provider chunks).out ++ [Out.close]) := by
  constructor
  · intro hf
    obtain ⟨pre, hpre⟩ := (streamFold_good provider chunks).2 hf
    refine ⟨pre, ?_⟩
    rw [streamResponse, if_pos hf]
    exact hpre
  · intro hf
    have hne : ¬((streamFold provider chunks).finished = true) := by
      rw [hf]; exact Bool.false_ne_true
    have hout : streamResponse provider chunks Ending.natural =
        (streamFold provider chunks).out ++ [Out.close] := by
      rw [streamResponse, if_neg hne]
    refine ⟨?_, hout⟩
    rw [hout]
    have hnd := (streamFold_good provider chunks).1 hf
    simp only [List.mem_append, not_or]
    exact ⟨hnd, by simp⟩

/-- Witness for the amended C4: a stream with a `[DONE]` sentinel ends with
the terminator; a naturally exhausted stream without one does not. -/
theorem done_marker_iff_sentinel_witness :
    (∃ pre, streamResponse Provider.openai ["data: [DONE]\n\n".toList]
      Ending.natural = pre ++ [Out.doneMark, Out.close]) ∧
    Out.doneMark ∉ streamResponse Provider.openai
      ["data: \x7b\"choices\":[\x7b\"delta\":\x7b\"content\":\"Hi\"\x7d\x7d]\x7d\n\n".toList]
      Ending.natural :=
  ⟨(done_marker_iff_sentinel Provider.openai
      ["data: [DONE]\n\n".toList]).1 (by decide),
    ((done_marker_iff_sentinel Provider.openai
      ["data: \x7b\"choices\":[\x7b\"delta\":\x7b\"content\":\"Hi\"\x7d\x7d]\x7d\n\n".toList]).2
      (by decide)).1⟩

/-- C5: each credential-requiring adapter throws its configuration error
before producing any outbound request when the credential field is empty,
while the LM Studio adapter performs its single request without any
authorization header and without requiring a credential. -/
theorem missing_credential_rejected (config : LLMProvider)
    (messages : List ChatMessage) (h : config.apiKey = "") :
    callOpenAI config messages =
      Except.error "OpenAI API key not configured" ∧
    callAnthropic config messages =
      Except.error "Anthropic API key not configured" ∧
    callGemini config messages =
      Except.error "Gemini API key not configured" ∧
    ∃ req, callLMStudio config messages = Except.ok req ∧
      req.headers = [("Content-Type", "application/json")] := by
  refine ⟨?_, ?_, ?_, ⟨_, rfl, rfl⟩⟩
  · rw [callOpenAI, if_pos h]
  · rw [callAnthropic, if_pos h]
  · rw [callGemini, if_pos h]

/-- Witness for C5 at the default LM Studio-style configuration with an
empty key. -/
theorem missing_credential_rejected_witness :
    callOpenAI ⟨"https://api.openai.com/v1", "", "gpt-4o-mini", (0.1 : Rat),
        1000, "sys", true⟩ [] =
      Except.error "OpenAI API key not configured" ∧
    callAnthropic ⟨"https://api.openai.com/v1", "", "gpt-4o-mini", (0.1 : Rat),
        1000, "sys", true⟩ [] =
      Except.error "Anthropic API key not configured" ∧
    callGemini ⟨"https://api.openai.com/v1", "", "gpt-4o-mini", (0.1 : Rat),
        1000, "sys", true⟩ [] =
      Except.error "Gemini API key not configured" ∧
    ∃ req, callLMStudio ⟨"https://api.openai.com/v1", "", "gpt-4o-mini",
        (0.1 : Rat), 1000, "sys", true⟩ [] = Except.ok req ∧
      req.headers = [("Content-Type", "application/json")] :=
  missing_credential_rejected _ [] rfl

/-- C6: a complete record whose payload fails JSON parsing decodes to the
empty token — it produces no write and does not finish the stream — and
deleting it from the record list leaves the decoding of all surrounding
records unchanged, so every subsequent well-formed record still produces
its fragment. -/
theorem malformed_record_tolerated (provider : Provider) (payload : List Char)
    (pre post : List (List Char))
    (hbad : (parseJson payload).isNone = true)
    (hnd : payload ≠ "[DONE]".toList) :
    recAction provider (dataMarker ++ payload) = RecordResult.token "" ∧
    processEvents provider (pre ++ (dataMarker ++ payload) :: post) =
      processEvents provider (pre ++ post) := by
  have h1 := recAction_malformed provider payload hbad hnd
  exact ⟨h1, processEvents_skip_empty provider _ h1 pre post⟩

/-- Witness for C6: a truncated JSON payload between two well-formed
Family A records changes nothing. -/
theorem malformed_record_tolerated_witness :
    recAction Provider.openai (dataMarker ++ "\x7binvalid".toList) =
      RecordResult.token "" ∧
    processEvents Provider.openai
        (["data: \x7b\"choices\":[\x7b\"delta\":\x7b\"content\":\"A\"\x7d\x7d]\x7d".toList] ++
          (dataMarker ++ "\x7binvalid".toList) ::
            ["data: \x7b\"choices\":[\x7b\"delta\":\x7b\"content\":\"B\"\x7d\x7d]\x7d".toList]) =
      processEvents Provider.openai
        (["data: \x7b\"choices\":[\x7b\"delta\":\x7b\"content\":\"A\"\x7d\x7d]\x7d".toList] ++
          ["data: \x7b\"choices\":[\x7b\"delta\":\x7b\"content\":\"B\"\x7d\x7d]\x7d".toList]) :=
  malformed_record_tolerated Provider.openai _ _ _ (by decide) (by decide)

/-- C7: the concrete Family A scenario.  The three blank-line-terminated
records produce exactly the two fragments in order, then the terminator
record and `res.end()`; nothing follows. -/
theorem familyA_concrete_scenario :
    streamResponse Provider.openai
      ["data: \x7b\"choices\":[\x7b\"delta\":\x7b\"content\":\"Hi\"\x7d\x7d]\x7d\n\n".toList,
        "data: \x7b\"choices\":[\x7b\"delta\":\x7b\"content\":\" there\"\x7d\x7d]\x7d\n\n".toList,
        "data: [DONE]\n\n".toList] Ending.natural =
      [Out.tok "Hi", Out.tok " there", Out.doneMark, Out.close] := by
  decide

/-- C10: the Gemini adapter maps every message to a content whose role is
`model` exactly when the original role is `assistant` (and `user`
otherwise, including system messages), always wrapping the text in
`parts`; the body carries only `contents` and the generation parameters,
with no dedicated system field. -/
theorem gemini_role_mapping (config : LLMProvider)
    (messages : List ChatMessage) (h : config.apiKey ≠ "") :
    ∃ req, callGemini config messages = Except.ok req ∧
      req.body.contents = messages.map geminiContentOf ∧
      ∀ m : ChatMessage,
        ((geminiContentOf m).role = "model" ↔ m.role = Role.assistant) ∧
        (geminiContentOf m).parts = [m.content] := by
  have hok : callGemini config messages = Except.ok
      ⟨config.baseUrl ++ "/models/" ++ config.model ++
          ":streamGenerateContent?key=" ++ config.apiKey,
        [("Content-Type", "application/json")],
        ⟨messages.map geminiContentOf, config.temperature, config.maxTokens⟩⟩ := by
    rw [callGemini, if_neg h]
  refine ⟨_, hok, rfl, ?_⟩
  intro m
  refine ⟨⟨?_, ?_⟩, rfl⟩
  · intro hm
    by_cases hc : m.role = Role.assistant
    · exact hc
    · have hrole : (geminiContentOf m).role = "user" := by
        rw [geminiContentOf, if_neg hc]
      rw [hrole] at hm
      exact absurd hm (by decide)
  · intro hm
    rw [geminiContentOf, if_pos hm]

/-- Witness for C10 on a three-message conversation containing a system
message. -/
theorem gemini_role_mapping_witness :
    ∃ req, callGemini ⟨"https://generativelanguage.googleapis.com/v1beta",
        "k", "gemini-1.5-flash", (0.1 : Rat), 1000, "sys", true⟩
        [⟨Role.system, "s"⟩, ⟨Role.user, "u"⟩, ⟨Role.assistant, "a"⟩] =
      Except.ok req ∧
      req.body.contents =
        [⟨Role.system, "s"⟩, ⟨Role.user, "u"⟩,
          (⟨Role.assistant, "a"⟩ : ChatMessage)].map geminiContentOf ∧
      ∀ m : ChatMessage,
        ((geminiContentOf m).role = "model" ↔ m.role = Role.assistant) ∧
        (geminiContentOf m).parts = [m.content] :=
  gemini_role_mapping _ _ (by decide)

/-- The concrete stored configuration used to exhibit the `getSafeConfig`
mutation: the OpenAI provider has a non-empty key. -/
def mutationConfig : LLMConfig :=
  ⟨Provider.openai,
    ⟨⟨"http://localhost:1234/v1", "", "auto", (0.1 : Rat), 1000, "lm", true⟩,
      ⟨"https://api.openai.com/v1", "sk-test", "gpt-4o-mini", (0.1 : Rat),
        1000, "oa", true⟩,
      ⟨"https://api.anthropic.com/v1", "", "claude-3-haiku-20240307",
        (0.1 : Rat), 1000, "an", true⟩,
      ⟨"https://generativelanguage.googleapis.com/v1beta", "", "gemini-1.5-flash",
        (0.1 : Rat), 1000, "ge", true⟩⟩⟩

/-- C9 refuted: `getSafeConfig` does NOT leave the stored configuration
unchanged.  Because `{ ...this.config }` copies only the top level, the
masking writes through to the live provider objects: after the call the
stored OpenAI key is `***`, no longer `sk-test`. -/
theorem getSafeConfig_mutates_stored :
    mutationConfig.providers.openai.apiKey = "sk-test" ∧
    (getSafeConfig mutationConfig).2.providers.openai.apiKey = "***" ∧
    (getSafeConfig mutationConfig).2 ≠ mutationConfig := by
  refine ⟨rfl, rfl, ?_⟩
  intro hc
  have := congrArg (fun c => c.providers.openai.apiKey) hc
  simp only at this
  exact absurd this (by decide)

end BookmarkletLLM
